import Mathlib

/-!
# Verification of the Garage composition layer and its replicated-table core

This development embeds, in Lean, the data model and operations of the Garage
object-storage system as visible from `src/model/garage.rs` (the composition
layer) and, for the parts of the engine that the composition layer only calls
into (the table merge machinery, quorum I/O, the block manager and the index
counter), models faithful to the system specification's description of those
parts.
-/

namespace Garage

/-! ## Table entries and CRDT merge

Modelled from the spec: a table entry wraps a row value plus CRDT metadata,
namely a write timestamp (logical clock) and a tombstone flag, together with
the identifier of the originating node, used as the tie-break for equal
timestamps. -/

structure Entry where
  ts : Nat
  node : Nat
  deleted : Bool
  value : Nat
  deriving DecidableEq, Repr

/-- Modelled from the spec: the strict merge order on entries — higher
timestamp wins, ties broken by the fixed total order over originating node
identifiers. -/
def keyLt (a b : Entry) : Prop :=
  a.ts < b.ts ∨ (a.ts = b.ts ∧ a.node < b.node)

theorem keyLt_def (a b : Entry) :
    keyLt a b ↔ (a.ts < b.ts ∨ (a.ts = b.ts ∧ a.node < b.node)) := Iff.rfl

instance (a b : Entry) : Decidable (keyLt a b) := by
  unfold keyLt; infer_instance

/-- Modelled from the spec: merge of two entries for the same key — the entry
with the higher timestamp wins; ties are broken by the node-identifier order.
When neither entry is strictly greater (identical timestamp and node), the
left entry is kept. -/
def merge (a b : Entry) : Entry :=
  if keyLt a b then b else a

/-- Two entries are origin-coherent when sharing both timestamp and
originating node forces them to be the same entry (each node's logical clock
never reuses a timestamp). -/
def coherent (a b : Entry) : Prop :=
  a.ts = b.ts → a.node = b.node → a = b

instance (a b : Entry) : Decidable (coherent a b) := by
  unfold coherent; infer_instance

theorem merge_idem (a : Entry) : merge a a = a := by
  unfold merge keyLt
  simp

theorem merge_comm_of_coherent (a b : Entry) (h : coherent a b) :
    merge a b = merge b a := by
  unfold coherent at h
  unfold merge
  split_ifs with h1 h2 h2
  · exfalso; rw [keyLt_def] at h1 h2; omega
  · rfl
  · rfl
  · rw [keyLt_def] at h1 h2
    exact h (by omega) (by omega)

theorem merge_assoc (a b c : Entry) :
    merge (merge a b) c = merge a (merge b c) := by
  unfold merge
  split_ifs <;>
    simp only [keyLt_def] at * <;>
    first
      | rfl
      | (exfalso; omega)

theorem merge_left_comm (x y : Entry) (h : coherent x y) (z : Entry) :
    merge (merge z x) y = merge (merge z y) x := by
  unfold coherent at h
  unfold merge
  split_ifs <;>
    simp only [keyLt_def] at * <;>
    first
      | rfl
      | (exfalso; omega)
      | (exact h (by omega) (by omega))

/-- C2: the merge function on table entries is idempotent, commutative (on
origin-coherent entries), associative, and deterministic; consequently merging
any finite collection of pairwise origin-coherent entries in any order yields
the same result. -/
theorem merge_crdt_laws (a b c i : Entry) (l₁ l₂ : List Entry)
    (hab : coherent a b)
    (hperm : l₁.Perm l₂)
    (hl : ∀ x ∈ l₁, ∀ y ∈ l₁, coherent x y) :
    merge a a = a ∧
    merge a b = merge b a ∧
    merge (merge a b) c = merge a (merge b c) ∧
    l₁.foldl merge i = l₂.foldl merge i := by
  refine ⟨merge_idem a, merge_comm_of_coherent a b hab, merge_assoc a b c, ?_⟩
  exact hperm.foldl_eq' (fun x hx y hy z => merge_left_comm x y (hl x hx y hy) z) i

/-- Witness for C2 at the spec's convergence example: three writes for one key
with distinct timestamps, merged in two different orders. -/
theorem merge_crdt_laws_witness :
    merge ⟨100, 0, false, 1⟩ ⟨100, 0, false, 1⟩ = ⟨100, 0, false, 1⟩ ∧
    merge ⟨100, 0, false, 1⟩ ⟨90, 1, false, 2⟩ =
      merge ⟨90, 1, false, 2⟩ ⟨100, 0, false, 1⟩ ∧
    merge (merge ⟨100, 0, false, 1⟩ ⟨90, 1, false, 2⟩) ⟨110, 2, false, 3⟩ =
      merge ⟨100, 0, false, 1⟩ (merge ⟨90, 1, false, 2⟩ ⟨110, 2, false, 3⟩) ∧
    List.foldl merge ⟨0, 0, false, 0⟩ [⟨100, 0, false, 1⟩, ⟨90, 1, false, 2⟩, ⟨110, 2, false, 3⟩] =
      List.foldl merge ⟨0, 0, false, 0⟩ [⟨110, 2, false, 3⟩, ⟨100, 0, false, 1⟩, ⟨90, 1, false, 2⟩] :=
  merge_crdt_laws ⟨100, 0, false, 1⟩ ⟨90, 1, false, 2⟩ ⟨110, 2, false, 3⟩ ⟨0, 0, false, 0⟩
    [⟨100, 0, false, 1⟩, ⟨90, 1, false, 2⟩, ⟨110, 2, false, 3⟩]
    [⟨110, 2, false, 3⟩, ⟨100, 0, false, 1⟩, ⟨90, 1, false, 2⟩]
    (by decide) (by decide) (by decide)

/-- C3: tombstone precedence is decided by timestamp (under the tie-break
order) only, never by tombstone status: for a tombstone `t` and a live entry
`e` whose merge keys differ, the merge, in either argument order, returns `t`
exactly when `t`'s key exceeds `e`'s, and returns `e` exactly when `e`'s key
exceeds `t`'s. -/
theorem tombstone_precedence_by_timestamp (t e : Entry)
    (ht : t.deleted = true) (he : e.deleted = false)
    (hk : ¬ (t.ts = e.ts ∧ t.node = e.node)) :
    (merge t e = t ↔ keyLt e t) ∧
    (merge t e = e ↔ keyLt t e) ∧
    (merge e t = t ↔ keyLt e t) ∧
    (merge e t = e ↔ keyLt t e) := by
  have hne : t ≠ e := by
    intro hte
    rw [hte] at ht
    rw [ht] at he
    exact absurd he (by decide)
  unfold merge
  split_ifs with h1 h2 <;>
    refine ⟨⟨fun hx => ?_, fun hx => ?_⟩, ⟨fun hx => ?_, fun hx => ?_⟩,
            ⟨fun hx => ?_, fun hx => ?_⟩, ⟨fun hx => ?_, fun hx => ?_⟩⟩ <;>
    first
      | rfl
      | assumption
      | (exact absurd hx hne)
      | (exact absurd hx.symm hne)
      | (exfalso; rw [keyLt_def] at *; omega)

/-- Witness for C3 at the spec's example: tombstone `deleted@ts=100` beats the
stale insert `Y@ts=90` in both merge orders, and loses to `Z@ts=110`. -/
theorem tombstone_precedence_by_timestamp_witness :
    (merge ⟨100, 0, true, 0⟩ ⟨90, 1, false, 7⟩ = ⟨100, 0, true, 0⟩ ↔
      keyLt ⟨90, 1, false, 7⟩ ⟨100, 0, true, 0⟩) ∧
    (merge ⟨100, 0, true, 0⟩ ⟨90, 1, false, 7⟩ = ⟨90, 1, false, 7⟩ ↔
      keyLt ⟨100, 0, true, 0⟩ ⟨90, 1, false, 7⟩) ∧
    (merge ⟨90, 1, false, 7⟩ ⟨100, 0, true, 0⟩ = ⟨100, 0, true, 0⟩ ↔
      keyLt ⟨90, 1, false, 7⟩ ⟨100, 0, true, 0⟩) ∧
    (merge ⟨90, 1, false, 7⟩ ⟨100, 0, true, 0⟩ = ⟨90, 1, false, 7⟩ ↔
      keyLt ⟨100, 0, true, 0⟩ ⟨90, 1, false, 7⟩) :=
  tombstone_precedence_by_timestamp ⟨100, 0, true, 0⟩ ⟨90, 1, false, 7⟩
    rfl rfl (by decide)

/-! ## Replication parameters (claim C1)

`Garage::new` in `src/model/garage.rs` builds two `TableShardedReplication`
values: `data_rep_param` (given to the block manager) with
`read_quorum` hardcoded to `1`, and `meta_rep_param` (given to the metadata
tables) with `read_quorum = replication_mode.read_quorum()`. The
`ReplicationMode` quorum accessors live outside `src/` and are modelled from
the spec below. -/

/-- Modelled from the spec: the cluster replication mode, determining the
replication factor and the read/write quorums; the spec's reference
configuration is `replication_factor = 3, write_quorum = 2, read_quorum = 2`,
which satisfies `write_quorum + read_quorum > replication_factor`. -/
inductive ReplicationMode
  | one
  | two
  | three
  deriving DecidableEq, Repr

/-- Modelled from the spec: parsing the `replication_mode` configuration
string. -/
def ReplicationMode.parse : String → Option ReplicationMode
  | "none" => some .one
  | "1" => some .one
  | "2" => some .two
  | "3" => some .three
  | _ => none

def ReplicationMode.replicationFactor : ReplicationMode → Nat
  | .one => 1
  | .two => 2
  | .three => 3

/-- Modelled from the spec: write quorum per mode (the spec's rf=3
configuration uses write_quorum = 2). -/
def ReplicationMode.writeQuorum : ReplicationMode → Nat
  | .one => 1
  | .two => 2
  | .three => 2

/-- Modelled from the spec: read quorum per mode (the spec's rf=3
configuration uses read_quorum = 2). -/
def ReplicationMode.readQuorum : ReplicationMode → Nat
  | .one => 1
  | .two => 1
  | .three => 2

/-- The quorum fields of a `TableShardedReplication` value
(`src/model/garage.rs`). -/
structure TableShardedReplication where
  replicationFactor : Nat
  writeQuorum : Nat
  readQuorum : Nat
  deriving DecidableEq, Repr

/-- `data_rep_param` as built in `Garage::new` (given to the block manager):
`read_quorum` is hardcoded to 1. -/
def dataRepParam (m : ReplicationMode) : TableShardedReplication :=
  { replicationFactor := m.replicationFactor
    writeQuorum := m.writeQuorum
    readQuorum := 1 }

/-- `meta_rep_param` as built in `Garage::new` (given to the block-ref,
version, object, object-counter and k2v tables). -/
def metaRepParam (m : ReplicationMode) : TableShardedReplication :=
  { replicationFactor := m.replicationFactor
    writeQuorum := m.writeQuorum
    readQuorum := m.readQuorum }

/-- The read-after-write quorum invariant claimed by the spec. -/
def quorumInvariant (p : TableShardedReplication) : Prop :=
  p.replicationFactor < p.writeQuorum + p.readQuorum

instance (p : TableShardedReplication) : Decidable (quorumInvariant p) := by
  unfold quorumInvariant; infer_instance

/-- C1 counterexample: at the spec's reference configuration
(`replication_factor = 3, write_quorum = 2`), the `TableShardedReplication`
given to the block manager (`data_rep_param`, whose `read_quorum` is
hardcoded to 1) violates `write_quorum + read_quorum > replication_factor`:
2 + 1 = 3 is not greater than 3. -/
theorem quorum_invariant_fails_for_block_manager_param :
    ¬ quorumInvariant (dataRepParam ReplicationMode.three) := by
  decide

/-- C1 (amended): the quorum invariant holds for the metadata replication
parameter in every replication mode, but for the block-manager replication
parameter (read quorum hardcoded to 1) it holds exactly when the write quorum
equals the replication factor — in particular not in the spec's
`replication_factor = 3, write_quorum = 2` configuration. -/
theorem quorum_invariant_meta_only (m : ReplicationMode) :
    quorumInvariant (metaRepParam m) ∧
    (quorumInvariant (dataRepParam m) ↔ m.writeQuorum = m.replicationFactor) := by
  cases m <;> exact ⟨by decide, by decide⟩

/-! ## Quorum write and read outcomes (claim C4) -/

/-- Errors surfaced by table RPC operations. -/
inductive TableError
  | insufficientReplicas
  deriving DecidableEq, Repr

/-- Number of replicas that acknowledged within the bounded timeout. -/
def ackCount (acks : List Bool) : Nat :=
  acks.count true

/-- Modelled from the spec: a quorum write fans out to the replica set and,
given the per-replica acknowledgements received within the bounded timeout,
succeeds exactly when at least `write_quorum` replicas acknowledged, and
otherwise fails with `InsufficientReplicas`. -/
def tryWrite (writeQuorum : Nat) (acks : List Bool) : Except TableError Unit :=
  if writeQuorum ≤ ackCount acks then .ok () else .error .insufficientReplicas

/-- Merge a list of replica responses into the single returned entry. -/
def mergeResponses : List Entry → Option Entry
  | [] => none
  | e :: rest => some (rest.foldl merge e)

/-- Modelled from the spec: a quorum read waits for `read_quorum` responses
within the bounded timeout, merges them and returns the merged entry;
with fewer responses it fails with `InsufficientReplicas`. -/
def tryRead (readQuorum : Nat) (replies : List Entry) :
    Except TableError (Option Entry) :=
  if readQuorum ≤ replies.length then .ok (mergeResponses replies)
  else .error .insufficientReplicas

/-- C4: a quorum write (resp. read) fails with the explicit
`InsufficientReplicas` error exactly when fewer than `write_quorum`
acknowledgements (resp. `read_quorum` responses) arrived within the bounded
timeout, and otherwise returns the full (merged) result — never a partial or
silently degraded one; both operations are total functions of the responses
received within the timeout, so neither blocks indefinitely. -/
theorem quorum_failure_is_explicit (wq rq : Nat) (acks : List Bool)
    (replies : List Entry) :
    (tryWrite wq acks = .error .insufficientReplicas ↔ ackCount acks < wq) ∧
    (tryWrite wq acks = .ok () ↔ wq ≤ ackCount acks) ∧
    (tryRead rq replies = .error .insufficientReplicas ↔ replies.length < rq) ∧
    (tryRead rq replies = .ok (mergeResponses replies) ↔ rq ≤ replies.length) := by
  unfold tryWrite tryRead
  refine ⟨?_, ?_, ?_, ?_⟩ <;>
    split_ifs with h <;>
    simp_all

/-! ## Content-addressed block store: put (claim C5) -/

/-- The local block store: an association of block identifiers (content
hashes) to the stored (optionally compressed) payload. -/
def BlockStore := List (Nat × List Nat)

/-- Look up a stored block by its identifier. -/
def findBlock : BlockStore → Nat → Option (List Nat)
  | [], _ => none
  | (i, d) :: rest, id => if i = id then some d else findBlock rest id

/-- Number of physical blocks stored under a given identifier. -/
def countBlocks (s : BlockStore) (id : Nat) : Nat :=
  s.countP (fun p => p.1 = id)

/-- Modelled from the spec: `put(bytes)` computes the content hash of the
(optionally compressed) payload and, if no block with that identifier is
already stored, writes it exactly once; otherwise the store is left
untouched. Returns the updated store and the block identifier. The hash and
compression functions are parameters (caller-supplied configuration). -/
def putBlock (hash : List Nat → Nat) (compress : List Nat → List Nat)
    (s : BlockStore) (B : List Nat) : BlockStore × Nat :=
  let data := compress B
  let id := hash data
  match findBlock s id with
  | some _ => (s, id)
  | none => ((id, data) :: s, id)

theorem findBlock_isSome_iff_countBlocks_pos (s : BlockStore) (id : Nat) :
    (findBlock s id).isSome ↔ 0 < countBlocks s id := by
  induction s with
  | nil => simp [findBlock, countBlocks]
  | cons p rest ih =>
    obtain ⟨i, d⟩ := p
    unfold findBlock countBlocks
    unfold countBlocks at ih
    rw [List.countP_cons]
    by_cases h : i = id
    · subst h
      simp
    · have hdec : decide ((i, d).1 = id) = false := by
        simp [h]
      rw [if_neg h, hdec]
      simpa using ih

/-- C5: block-manager put is idempotent under content addressing: for any
hash and compression configuration, putting the same bytes `B` twice returns
the same identifier — the hash of the (optionally) compressed content — both
times, the second put leaves the store exactly as the first left it (no
rewrite, no corruption), and after a put exactly `max 1 (count before)`
physical blocks are stored under that identifier (so from a store without
duplicates, at most one). -/
theorem putBlock_idempotent (hash : List Nat → Nat)
    (compress : List Nat → List Nat) (s : BlockStore) (B : List Nat) :
    (putBlock hash compress s B).2 = hash (compress B) ∧
    (putBlock hash compress (putBlock hash compress s B).1 B).2 =
      (putBlock hash compress s B).2 ∧
    (putBlock hash compress (putBlock hash compress s B).1 B).1 =
      (putBlock hash compress s B).1 ∧
    countBlocks (putBlock hash compress s B).1 (hash (compress B)) =
      max 1 (countBlocks s (hash (compress B))) := by
  unfold putBlock
  cases h : findBlock s (hash (compress B)) with
  | some d =>
    have hpos : 0 < countBlocks s (hash (compress B)) := by
      rw [← findBlock_isSome_iff_countBlocks_pos, h]
      rfl
    simp [h]
    omega
  | none =>
    have hzero : countBlocks s (hash (compress B)) = 0 := by
      by_contra hne
      have : (findBlock s (hash (compress B))).isSome := by
        rw [findBlock_isSome_iff_countBlocks_pos]
        omega
      rw [h] at this
      exact absurd this (by decide)
    simp [h, findBlock, countBlocks, List.countP_cons]
    unfold countBlocks at hzero
    omega

/-! ## Content-addressed block store: get (claim C6) -/

/-- Errors surfaced by block-manager get. -/
inductive BlockError
  | blockNotFound
  | blockCorrupt
  deriving DecidableEq, Repr

instance {ε α : Type} [DecidableEq ε] [DecidableEq α] :
    DecidableEq (Except ε α) := fun a b =>
  match a, b with
  | .ok x, .ok y =>
    if h : x = y then .isTrue (by rw [h]) else .isFalse (by simp [h])
  | .error x, .error y =>
    if h : x = y then .isTrue (by rw [h]) else .isFalse (by simp [h])
  | .ok _, .error _ => .isFalse (by simp)
  | .error _, .ok _ => .isFalse (by simp)

/-- Modelled from the spec: fetching one copy of a block verifies that the
bytes hash to the claimed identifier; a mismatching copy is never returned —
the fetch fails with `BlockCorrupt` (and the copy is quarantined). -/
def fetchCopy (hash : List Nat → Nat) (id : Nat) (bytes : List Nat) :
    Except BlockError (List Nat) :=
  if hash bytes = id then .ok bytes else .error .blockCorrupt

/-- Modelled from the spec: `get(block id)` tries the local copy first, then
fans out to the other replicas holding the block; each corrupt copy is
quarantined and a repair fetch from the next replica is tried; if no replica
holds a copy at all the result is `BlockNotFound`, and if copies exist but
every one is corrupt the result is `BlockCorrupt`. Returns the result
together with the list of quarantined corrupt copies. -/
def getBlock (hash : List Nat → Nat) (id : Nat) :
    List (List Nat) → Except BlockError (List Nat) × List (List Nat)
  | [] => (.error .blockNotFound, [])
  | c :: rest =>
    match fetchCopy hash id c with
    | .ok b => (.ok b, [])
    | .error _ =>
      let r := getBlock hash id rest
      (if r.1 = .error .blockNotFound then .error .blockCorrupt else r.1,
       c :: r.2)

theorem getBlock_ok_hash (hash : List Nat → Nat) (id : Nat)
    (copies : List (List Nat)) (b : List Nat)
    (hb : (getBlock hash id copies).1 = .ok b) : hash b = id := by
  induction copies with
  | nil => simp [getBlock] at hb
  | cons c rest ih =>
    by_cases h : hash c = id
    · simp [getBlock, fetchCopy, h] at hb
      rw [← hb]
      exact h
    · simp only [getBlock, fetchCopy, if_neg h] at hb
      by_cases hnf : (getBlock hash id rest).1 = .error .blockNotFound
      · simp [hnf] at hb
      · simp [hnf] at hb
        exact ih hb

theorem getBlock_quarantined_are_corrupt (hash : List Nat → Nat) (id : Nat)
    (copies : List (List Nat)) (c : List Nat)
    (hc : c ∈ (getBlock hash id copies).2) : hash c ≠ id := by
  induction copies with
  | nil => simp [getBlock] at hc
  | cons x rest ih =>
    by_cases h : hash x = id
    · simp [getBlock, fetchCopy, h] at hc
    · simp only [getBlock, fetchCopy, if_neg h] at hc
      rcases List.mem_cons.mp hc with hx | hx
      · subst hx
        exact h
      · exact ih hx

theorem getBlock_notFound_iff (hash : List Nat → Nat) (id : Nat)
    (copies : List (List Nat)) :
    (getBlock hash id copies).1 = .error .blockNotFound ↔ copies = [] := by
  cases copies with
  | nil => simp [getBlock]
  | cons c rest =>
    simp only [getBlock]
    constructor
    · intro hx
      exfalso
      by_cases h : hash c = id
      · simp [fetchCopy, h] at hx
      · simp only [fetchCopy, if_neg h] at hx
        by_cases hnf : (getBlock hash id rest).1 = .error .blockNotFound
        · simp [hnf] at hx
        · simp [hnf] at hx
    · intro hx
      cases hx

theorem getBlock_all_corrupt (hash : List Nat → Nat) (id : Nat)
    (copies : List (List Nat)) (hall : ∀ c ∈ copies, hash c ≠ id)
    (hne : copies ≠ []) :
    (getBlock hash id copies).1 = .error .blockCorrupt := by
  induction copies with
  | nil => exact absurd rfl hne
  | cons c rest ih =>
    have h : hash c ≠ id := hall c (List.mem_cons_self c rest)
    simp only [getBlock, fetchCopy, if_neg h]
    by_cases hnf : (getBlock hash id rest).1 = .error .blockNotFound
    · simp [hnf]
    · simp only [hnf, if_neg]
      cases rest with
      | nil => simp [getBlock] at hnf
      | cons c' rest' =>
        simp [hnf]
        exact ih (fun x hx => hall x (List.mem_cons_of_mem c hx)) (by simp)

/-- C6: block-manager get never returns bytes whose hash differs from the
requested identifier: a returned payload always hashes to the identifier,
a fetched copy whose hash mismatches fails its fetch with `BlockCorrupt` and
is quarantined (every quarantined copy is indeed corrupt), the overall get
fails with `BlockNotFound` exactly when no replica holds any copy, and when
copies exist but all are corrupt it fails with `BlockCorrupt`. -/
theorem getBlock_never_returns_corrupt (hash : List Nat → Nat) (id : Nat)
    (copies : List (List Nat)) :
    (∀ b, (getBlock hash id copies).1 = .ok b → hash b = id) ∧
    (∀ c, hash c ≠ id → fetchCopy hash id c = .error .blockCorrupt) ∧
    (∀ c ∈ (getBlock hash id copies).2, hash c ≠ id) ∧
    ((getBlock hash id copies).1 = .error .blockNotFound ↔ copies = []) ∧
    ((∀ c ∈ copies, hash c ≠ id) → copies ≠ [] →
      (getBlock hash id copies).1 = .error .blockCorrupt) := by
  refine ⟨fun b hb => getBlock_ok_hash hash id copies b hb,
          fun c hc => ?_,
          fun c hc => getBlock_quarantined_are_corrupt hash id copies c hc,
          getBlock_notFound_iff hash id copies,
          fun hall hne => getBlock_all_corrupt hash id copies hall hne⟩
  unfold fetchCopy
  rw [if_neg hc]

/-! ## Index counter (claim C7) -/

/-- Does the delta log already hold an operation with this op id? -/
def hasOp (s : List (Nat × Int)) (o : Nat) : Bool :=
  s.any (fun p => p.1 == o)

/-- Modelled from the spec: an increment/decrement is recorded as a uniquely
identified, idempotent delta operation `(op id, delta)`; an op id already
present in the log is not recorded again. -/
def applyOp (s : List (Nat × Int)) (op : Nat × Int) : List (Nat × Int) :=
  if hasOp s op.1 then s else op :: s

/-- Apply a sequence of delta operations (one delivery order). -/
def applyOps (s : List (Nat × Int)) (ops : List (Nat × Int)) :
    List (Nat × Int) :=
  ops.foldl applyOp s

/-- Modelled from the spec: the counter's observable value is the sum of all
delta operations in the merged log. -/
def readCounter (s : List (Nat × Int)) : Int :=
  (s.map Prod.snd).sum

theorem applyOp_idem (s : List (Nat × Int)) (op : Nat × Int) :
    applyOp (applyOp s op) op = applyOp s op := by
  unfold applyOp
  by_cases h : hasOp s op.1 = true
  · simp [h]
  · simp only [h, if_neg, Bool.not_eq_true]
    have : hasOp (op :: s) op.1 = true := by
      simp [hasOp]
    simp [h, this]

theorem readCounter_applyOps (ops : List (Nat × Int)) :
    ∀ s : List (Nat × Int), (ops.map Prod.fst).Nodup →
    (∀ op ∈ ops, hasOp s op.1 = false) →
    readCounter (applyOps s ops) = readCounter s + (ops.map Prod.snd).sum := by
  induction ops with
  | nil =>
    intro s _ _
    simp [applyOps, readCounter]
  | cons op rest ih =>
    intro s hnodup hfresh
    have hs : hasOp s op.1 = false := hfresh op (List.mem_cons_self op rest)
    have hstep : applyOps s (op :: rest) = applyOps (op :: s) rest := by
      simp [applyOps, applyOp, hs]
    rw [hstep]
    have hnr : (rest.map Prod.fst).Nodup := by
      simp only [List.map_cons, List.nodup_cons] at hnodup
      exact hnodup.2
    have hhead : op.1 ∉ rest.map Prod.fst := by
      simp only [List.map_cons, List.nodup_cons] at hnodup
      exact hnodup.1
    have hfr : ∀ op' ∈ rest, hasOp (op :: s) op'.1 = false := by
      intro op' hop'
      have h1 : op.1 ≠ op'.1 := by
        intro hc
        exact hhead (hc ▸ List.mem_map_of_mem Prod.fst hop')
      have h2 : hasOp s op'.1 = false := hfresh op' (List.mem_cons_of_mem op hop')
      simp [hasOp] at h2 ⊢
      exact ⟨fun hc => h1 hc, h2⟩
    rw [ih (op :: s) hnr hfr]
    simp [readCounter]
    omega

theorem readCounter_le_of_sublog (s g : List (Nat × Int))
    (hsnodup : (s.map Prod.fst).Nodup)
    (hsub : ∀ p ∈ s, p ∈ g)
    (hpos : ∀ p ∈ g, 0 ≤ p.2) :
    0 ≤ readCounter s ∧ readCounter s ≤ readCounter g := by
  have hnodup : s.Nodup := hsnodup.of_map
  have hsubperm : List.Subperm s g := hnodup.subperm hsub
  obtain ⟨l, hlperm, hlsub⟩ := hsubperm
  constructor
  · unfold readCounter
    apply List.sum_nonneg
    intro a ha
    obtain ⟨p, hp, hpa⟩ := List.mem_map.mp ha
    exact hpa ▸ hpos p (hsub p hp)
  · unfold readCounter
    calc (s.map Prod.snd).sum = (l.map Prod.snd).sum :=
          ((hlperm.map Prod.snd).sum_eq).symm
      _ ≤ (g.map Prod.snd).sum := by
          apply List.Sublist.sum_le_sum (hlsub.map Prod.snd)
          intro a ha
          obtain ⟨p, hp, hpa⟩ := List.mem_map.mp ha
          exact hpa ▸ hpos p hp

/-- C7: the index counter never double-counts an op id and its value is
order-independent: recording the same `(op id, delta)` twice leaves the log —
hence the read value — as if recorded once; applying a set of delta
operations with distinct op ids in any delivery order yields the same read
value, namely the sum of the deltas; and a local log holding a sub-collection
of the globally applied non-negative deltas reads a value that is
non-negative and never exceeds the true total. -/
theorem index_counter_laws (op : Nat × Int) (l₁ l₂ s g : List (Nat × Int))
    (hperm : l₁.Perm l₂)
    (hnodup : (l₁.map Prod.fst).Nodup)
    (hsnodup : (s.map Prod.fst).Nodup)
    (hsub : ∀ p ∈ s, p ∈ g)
    (hpos : ∀ p ∈ g, 0 ≤ p.2) :
    applyOp (applyOp s op) op = applyOp s op ∧
    readCounter (applyOps [] l₁) = (l₁.map Prod.snd).sum ∧
    readCounter (applyOps [] l₁) = readCounter (applyOps [] l₂) ∧
    0 ≤ readCounter s ∧ readCounter s ≤ readCounter g := by
  have h1 : readCounter (applyOps [] l₁) = (l₁.map Prod.snd).sum := by
    rw [readCounter_applyOps l₁ [] hnodup (fun op _ => rfl)]
    simp [readCounter]
  have hnodup₂ : (l₂.map Prod.fst).Nodup :=
    ((hperm.map Prod.fst).nodup_iff).mp hnodup
  have h2 : readCounter (applyOps [] l₂) = (l₂.map Prod.snd).sum := by
    rw [readCounter_applyOps l₂ [] hnodup₂ (fun op _ => rfl)]
    simp [readCounter]
  obtain ⟨h3, h4⟩ := readCounter_le_of_sublog s g hsnodup hsub hpos
  refine ⟨applyOp_idem s op, h1, ?_, h3, h4⟩
  rw [h1, h2]
  exact (hperm.map Prod.snd).sum_eq

/-- Witness for C7 at the spec's example: replaying `increment(+5, op id 7)`
twice does not double-count, and the increments `+3` and `+4` (op ids 1, 2)
merged in either order read `7`; a local log holding only op id 1 reads a
value between 0 and the true total. -/
theorem index_counter_laws_witness :
    applyOp (applyOp [(1, 3)] (7, 5)) (7, 5) = applyOp [(1, 3)] (7, 5) ∧
    readCounter (applyOps [] [(1, 3), (2, 4)]) =
      ([(1, 3), (2, 4)].map (Prod.snd (α := Nat))).sum ∧
    readCounter (applyOps [] [(1, 3), (2, 4)]) =
      readCounter (applyOps [] [(2, 4), (1, 3)]) ∧
    0 ≤ readCounter [(1, 3)] ∧
    readCounter [(1, 3)] ≤ readCounter [(1, 3), (2, 4)] :=
  index_counter_laws (7, 5) [(1, 3), (2, 4)] [(2, 4), (1, 3)]
    [(1, 3)] [(1, 3), (2, 4)]
    (by decide) (by decide) (by decide) (by decide) (by decide)

/-! ## Delete as tombstone write, background compaction (claim C8) -/

/-- Look up the entry stored for a key. -/
def findRow : List (Nat × Entry) → Nat → Option Entry
  | [], _ => none
  | (k', e) :: rest, k => if k' = k then some e else findRow rest k

/-- Modelled from the spec: local persistence of a write is merge-then-persist
— the incoming entry is merged with whatever the replica already holds for
that key; a key not yet present is inserted. -/
def writeEntry : List (Nat × Entry) → Nat → Entry → List (Nat × Entry)
  | [], k, e => [(k, e)]
  | (k', e') :: rest, k, e =>
    if k' = k then (k', merge e' e) :: rest
    else (k', e') :: writeEntry rest k e

/-- A tombstone entry carrying a fresh timestamp. -/
def tombstone (ts node : Nat) : Entry :=
  ⟨ts, node, true, 0⟩

/-- Modelled from the spec: `delete(key)` is a write of a tombstone entry
with a fresh timestamp — never a physical delete at the RPC layer. -/
def deleteEntry (s : List (Nat × Entry)) (k ts node : Nat) :
    List (Nat × Entry) :=
  writeEntry s k (tombstone ts node)

/-- Modelled from the spec: the background tombstone-compaction pass
physically removes exactly the rows whose entry is a tombstone older than the
configured horizon. -/
def compact (horizon now : Nat) (s : List (Nat × Entry)) :
    List (Nat × Entry) :=
  s.filter (fun p => !(p.2.deleted && decide (p.2.ts + horizon ≤ now)))

theorem writeEntry_map_fst (s : List (Nat × Entry)) (k : Nat) (e : Entry) :
    (writeEntry s k e).map Prod.fst =
      if k ∈ s.map Prod.fst then s.map Prod.fst
      else s.map Prod.fst ++ [k] := by
  induction s with
  | nil => simp [writeEntry]
  | cons p rest ih =>
    obtain ⟨k₀, e₀⟩ := p
    unfold writeEntry
    by_cases h : k₀ = k
    · subst h
      simp
    · rw [if_neg h]
      simp only [List.map_cons, List.mem_cons]
      by_cases hm : k ∈ rest.map Prod.fst
      · rw [if_pos (Or.inr hm), ih, if_pos hm]
      · have hcond : ¬(k = k₀ ∨ k ∈ rest.map Prod.fst) := by
          rintro (hc | hc)
          · exact h hc.symm
          · exact hm hc
        rw [if_neg hcond, ih, if_neg hm]
        simp

theorem findRow_writeEntry (s : List (Nat × Entry)) (k : Nat) (e : Entry) :
    findRow (writeEntry s k e) k =
      some (match findRow s k with
            | none => e
            | some e' => merge e' e) := by
  induction s with
  | nil => simp [writeEntry, findRow]
  | cons p rest ih =>
    obtain ⟨k₀, e₀⟩ := p
    unfold writeEntry findRow
    by_cases h : k₀ = k
    · simp [h, findRow]
    · simp [h, ih]

/-- C8: `delete` is a tombstone write, never a physical removal: every key
present before the delete is still present after it, the deleted key holds a
row, and (when the tombstone's timestamp is fresher than the stored entry's,
under the tie-break order) that row is exactly the tombstone entry; physical
removal happens only in the compaction pass, which removes precisely the rows
whose entry is a tombstone older than the horizon. -/
theorem delete_is_tombstone_write (s : List (Nat × Entry))
    (k ts node horizon now : Nat)
    (hfresh : ∀ e, findRow s k = some e → keyLt e (tombstone ts node)) :
    (∀ k' ∈ s.map Prod.fst, k' ∈ (deleteEntry s k ts node).map Prod.fst) ∧
    k ∈ (deleteEntry s k ts node).map Prod.fst ∧
    findRow (deleteEntry s k ts node) k = some (tombstone ts node) ∧
    (∀ p ∈ s, (p ∈ compact horizon now s ↔
      ¬(p.2.deleted = true ∧ p.2.ts + horizon ≤ now))) := by
  refine ⟨?_, ?_, ?_, ?_⟩
  · intro k' hk'
    rw [deleteEntry, writeEntry_map_fst]
    split_ifs
    · exact hk'
    · exact List.mem_append_left _ hk'
  · rw [deleteEntry, writeEntry_map_fst]
    split_ifs with hmem
    · exact hmem
    · exact List.mem_append_right _ (List.mem_singleton.mpr rfl)
  · rw [deleteEntry, findRow_writeEntry]
    cases hrow : findRow s k with
    | none => rfl
    | some e' =>
      have hlt : keyLt e' (tombstone ts node) := hfresh e' hrow
      simp [merge, hlt]
  · intro p hp
    unfold compact
    rw [List.mem_filter]
    simp [hp]
    cases hdel : p.2.deleted <;> simp [hdel]

/-- Witness for C8: deleting key 1 (stored entry at ts=90) with a tombstone
at ts=100 keeps the row physically present as the tombstone; compaction with
horizon 10 at now=120 removes exactly such an old tombstone row. -/
theorem delete_is_tombstone_write_witness :
    (∀ k' ∈ ([(1, (⟨90, 1, false, 7⟩ : Entry))].map Prod.fst),
      k' ∈ (deleteEntry [(1, ⟨90, 1, false, 7⟩)] 1 100 0).map Prod.fst) ∧
    1 ∈ (deleteEntry [(1, ⟨90, 1, false, 7⟩)] 1 100 0).map Prod.fst ∧
    findRow (deleteEntry [(1, ⟨90, 1, false, 7⟩)] 1 100 0) 1 =
      some (tombstone 100 0) ∧
    (∀ p ∈ [(1, (⟨90, 1, false, 7⟩ : Entry))],
      (p ∈ compact 10 120 [(1, ⟨90, 1, false, 7⟩)] ↔
        ¬(p.2.deleted = true ∧ p.2.ts + 10 ≤ 120))) :=
  delete_is_tombstone_write [(1, ⟨90, 1, false, 7⟩)] 1 100 0 10 120
    (by decide)

/-! ## Startup wiring: construction order and workers (claim C9)

Embedding of the composition performed by `Garage::new` and
`Garage::spawn_workers` in `src/model/garage.rs`. -/

/-- The components constructed and wired by `Garage::new`. -/
inductive Component
  | system
  | blockManager
  | bucketTable
  | bucketAliasTable
  | keyTable
  | blockRefTable
  | versionTable
  | objectCounterTable
  | objectTable
  | k2vCounterTable
  | k2vItemTable
  | k2vRpcHandler
  deriving DecidableEq, Repr

/-- The order in which `Garage::new` constructs the components (the k2v
components only when that optional subsystem is compiled in). -/
def constructionOrder (k2v : Bool) : List Component :=
  [.system, .blockManager, .bucketTable, .bucketAliasTable, .keyTable,
   .blockRefTable, .versionTable, .objectCounterTable, .objectTable] ++
  (if k2v then [.k2vCounterTable, .k2vItemTable, .k2vRpcHandler] else [])

/-- The shared reference-counted (`Arc`-cloned) handles each component
receives at construction in `Garage::new` (every table additionally receives
a handle to the membership system). -/
def handlesHeld : Component → List Component
  | .system => []
  | .blockManager => [.system]
  | .bucketTable => [.system]
  | .bucketAliasTable => [.system]
  | .keyTable => [.system]
  | .blockRefTable => [.blockManager, .system]
  | .versionTable => [.blockRefTable, .system]
  | .objectCounterTable => [.system]
  | .objectTable => [.versionTable, .objectCounterTable, .system]
  | .k2vCounterTable => [.system]
  | .k2vItemTable => [.k2vCounterTable, .system]
  | .k2vRpcHandler => [.system, .k2vItemTable]

/-- The tables constructed by `Garage::new`. -/
def constructedTables (k2v : Bool) : List Component :=
  [.bucketTable, .bucketAliasTable, .keyTable, .blockRefTable,
   .versionTable, .objectCounterTable, .objectTable] ++
  (if k2v then [.k2vCounterTable, .k2vItemTable] else [])

/-- The components for which `Garage::spawn_workers` registers background
workers with the scheduler, in call order. -/
def spawnWorkersOrder (k2v : Bool) : List Component :=
  [.blockManager, .bucketTable, .bucketAliasTable, .keyTable,
   .objectTable, .objectCounterTable, .versionTable, .blockRefTable] ++
  (if k2v then [.k2vItemTable, .k2vCounterTable] else [])

/-- C9: `Garage::new` constructs the cross-referencing tables in a fixed
topological order — every handle a component holds refers to a component
constructed strictly earlier (in particular block-ref before version before
object), so the reference graph is acyclic; and `spawn_workers` registers
background workers for the block manager and for every constructed table,
including the k2v tables when that subsystem is present. -/
theorem construction_topological_and_workers (k2v : Bool) :
    ((constructionOrder k2v).Nodup ∧
     ∀ c ∈ constructionOrder k2v, ∀ d ∈ handlesHeld c,
       (constructionOrder k2v).indexOf d < (constructionOrder k2v).indexOf c) ∧
    ((constructionOrder k2v).indexOf Component.blockRefTable <
       (constructionOrder k2v).indexOf Component.versionTable ∧
     (constructionOrder k2v).indexOf Component.versionTable <
       (constructionOrder k2v).indexOf Component.objectTable) ∧
    (Component.blockManager ∈ spawnWorkersOrder k2v ∧
     ∀ t ∈ constructedTables k2v, t ∈ spawnWorkersOrder k2v) := by
  cases k2v <;> decide

/-- Witness for C6 with hash modelled as `List.length` and requested
identifier 2: the corrupt copy `[1, 2, 3]` fails its fetch with
`BlockCorrupt`, and the payload returned by get hashes to the identifier. -/
theorem getBlock_never_returns_corrupt_witness :
    List.length ([9, 9] : List Nat) = 2 ∧
    fetchCopy List.length 2 [1, 2, 3] = .error .blockCorrupt :=
  ⟨(getBlock_never_returns_corrupt List.length 2 [[1, 2, 3], [9, 9]]).1
      [9, 9] (by decide),
   (getBlock_never_returns_corrupt List.length 2 [[1, 2, 3], [9, 9]]).2.1
      [1, 2, 3] (by decide)⟩

/-! ## Configuration validation in `Garage::new` (claim C10)

Embedding of the validation prefix of `Garage::new` in
`src/model/garage.rs`: database-engine selection, RPC secret decoding and
replication-mode parsing all happen before the membership system, the block
manager or any table is constructed. -/

/-- Which optional database engines are compiled into the build. -/
structure BuildFeatures where
  sled : Bool
  sqlite : Bool
  lmdb : Bool
  k2v : Bool
  deriving DecidableEq, Repr

/-- The configuration fields consulted by the validation prefix of
`Garage::new`. -/
structure Config where
  dbEngine : String
  rpcSecret : Option String
  replicationMode : String
  deriving DecidableEq, Repr

/-- A database engine compiled into the build. -/
inductive DbEngine
  | sled
  | sqlite
  | lmdb
  deriving DecidableEq, Repr

/-- The list of engine option names advertised in the unsupported-engine
error message (mirrors the `vec![...]` in `Garage::new`). -/
def availableEngines (feat : BuildFeatures) : List String :=
  (if feat.sled then ["sled"] else []) ++
  (if feat.sqlite then ["sqlite"] else []) ++
  (if feat.lmdb then ["lmdb"] else [])

/-- The `db_engine` dispatch of `Garage::new`: engine names recognised but
not compiled in produce a build-specific error; unknown names produce the
unsupported-engine error listing the compiled-in options. -/
def openDb (feat : BuildFeatures) (engine : String) : Except String DbEngine :=
  match engine with
  | "sled" =>
    if feat.sled then .ok .sled
    else .error "sled db not available in this build"
  | "sqlite" | "sqlite3" | "rusqlite" =>
    if feat.sqlite then .ok .sqlite
    else .error "sqlite db not available in this build"
  | "lmdb" | "heed" =>
    if feat.lmdb then .ok .lmdb
    else .error "lmdb db not available in this build"
  | e =>
    .error ("Unsupported DB engine: " ++ e ++ " (options: " ++
      String.intercalate ", " (availableEngines feat) ++ ")")

def isHexDigit (c : Char) : Bool :=
  c.isDigit || ('a' ≤ c && c ≤ 'f') || ('A' ≤ c && c ≤ 'F')

def hexVal (c : Char) : Nat :=
  if c.isDigit then c.toNat - '0'.toNat
  else if 'a' ≤ c && c ≤ 'f' then c.toNat - 'a'.toNat + 10
  else c.toNat - 'A'.toNat + 10

/-- `hex::decode`: succeeds on an even-length string of hex digits. -/
def hexDecodeChars : List Char → Option (List Nat)
  | [] => some []
  | [_] => none
  | c1 :: c2 :: rest =>
    if isHexDigit c1 && isHexDigit c2 then
      (hexDecodeChars rest).map (fun t => (16 * hexVal c1 + hexVal c2) :: t)
    else none

def hexDecode (s : String) : Option (List Nat) :=
  hexDecodeChars s.data

/-- Modelled from the spec: `NetworkKey::from_slice` (from the external
`netapp` crate) accepts exactly a 32-byte key. -/
def networkKeyFromSlice (b : List Nat) : Option (List Nat) :=
  if b.length = 32 then some b else none

/-- The state assembled by a successful `Garage::new` validation prefix. -/
structure GarageModel where
  engine : DbEngine
  networkKey : List Nat
  replMode : ReplicationMode
  deriving DecidableEq, Repr

/-- Embedding of `Garage::new`: validate the database engine, then the RPC
secret, then the replication mode, in that order, returning the first error;
only after all three succeed are the membership system, the block manager and
the tables constructed. Returns the result together with the list of
components constructed before returning (empty on every error path). -/
def garageNew (feat : BuildFeatures) (cfg : Config) :
    Except String GarageModel × List Component :=
  match openDb feat cfg.dbEngine with
  | .error msg => (.error msg, [])
  | .ok engine =>
    match cfg.rpcSecret with
    | none =>
      (.error "rpc_secret value is missing, not present in config file or in environment",
       [])
    | some secret =>
      match (hexDecode secret).bind networkKeyFromSlice with
      | none => (.error "Invalid RPC secret key", [])
      | some key =>
        match ReplicationMode.parse cfg.replicationMode with
        | none => (.error "Invalid replication_mode in config file.", [])
        | some mode =>
          (.ok { engine := engine, networkKey := key, replMode := mode },
           constructionOrder feat.k2v)

/-- C10: whenever the configured database engine is not available in the
build (or unknown), or the RPC secret is absent or not a valid hex-encoded
32-byte network key, or the replication mode does not parse, `Garage::new`
returns an error — with the specific descriptive message of the first failing
check — and constructs no component at all (no membership system, no block
manager, no table). -/
theorem config_validation_fails_cleanly (feat : BuildFeatures) (cfg : Config)
    (hbad : (∀ d, openDb feat cfg.dbEngine ≠ .ok d) ∨
            cfg.rpcSecret = none ∨
            (∀ s k, cfg.rpcSecret = some s →
              (hexDecode s).bind networkKeyFromSlice ≠ some k) ∨
            ReplicationMode.parse cfg.replicationMode = none) :
    (∃ msg, (garageNew feat cfg).1 = .error msg) ∧
    (garageNew feat cfg).2 = [] ∧
    (∀ msg, openDb feat cfg.dbEngine = .error msg →
      (garageNew feat cfg).1 = .error msg) ∧
    (∀ d, openDb feat cfg.dbEngine = .ok d → cfg.rpcSecret = none →
      (garageNew feat cfg).1 =
        .error "rpc_secret value is missing, not present in config file or in environment") ∧
    (∀ d s, openDb feat cfg.dbEngine = .ok d → cfg.rpcSecret = some s →
      (hexDecode s).bind networkKeyFromSlice = none →
      (garageNew feat cfg).1 = .error "Invalid RPC secret key") ∧
    (∀ d s k, openDb feat cfg.dbEngine = .ok d → cfg.rpcSecret = some s →
      (hexDecode s).bind networkKeyFromSlice = some k →
      ReplicationMode.parse cfg.replicationMode = none →
      (garageNew feat cfg).1 = .error "Invalid replication_mode in config file.") := by
  cases hdb : openDb feat cfg.dbEngine with
  | error msg =>
    refine ⟨⟨msg, by simp [garageNew, hdb]⟩, by simp [garageNew, hdb],
            ?_, ?_, ?_, ?_⟩
    · intro msg' hmsg'
      injection hmsg' with h
      subst h
      simp [garageNew, hdb]
    · intro d hok
      exact absurd hok (by simp)
    · intro d s hok
      exact absurd hok (by simp)
    · intro d s k hok
      exact absurd hok (by simp)
  | ok d =>
    cases hsec : cfg.rpcSecret with
    | none =>
      refine ⟨⟨"rpc_secret value is missing, not present in config file or in environment",
                by simp [garageNew, hdb, hsec]⟩,
              by simp [garageNew, hdb, hsec], ?_, ?_, ?_, ?_⟩
      · intro msg' hmsg'
        exact absurd hmsg' (by simp)
      · intro d' _ _
        simp [garageNew, hdb, hsec]
      · intro d' s hok hs
        exact absurd hs (by simp)
      · intro d' s k hok hs
        exact absurd hs (by simp)
    | some s =>
      cases hkey : (hexDecode s).bind networkKeyFromSlice with
      | none =>
        refine ⟨⟨"Invalid RPC secret key", by simp [garageNew, hdb, hsec, hkey]⟩,
                by simp [garageNew, hdb, hsec, hkey], ?_, ?_, ?_, ?_⟩
        · intro msg' hmsg'
          exact absurd hmsg' (by simp)
        · intro d' _ hnone
          exact absurd hnone (by simp)
        · intro d' s' _ hs
          injection hs with h
          subst h
          intro _
          simp [garageNew, hdb, hsec, hkey]
        · intro d' s' k _ hs hk
          injection hs with h
          subst h
          rw [hkey] at hk
          exact absurd hk (by simp)
      | some key =>
        cases hmode : ReplicationMode.parse cfg.replicationMode with
        | none =>
          refine ⟨⟨"Invalid replication_mode in config file.",
                    by simp [garageNew, hdb, hsec, hkey, hmode]⟩,
                  by simp [garageNew, hdb, hsec, hkey, hmode], ?_, ?_, ?_, ?_⟩
          · intro msg' hmsg'
            exact absurd hmsg' (by simp)
          · intro d' _ hnone
            exact absurd hnone (by simp)
          · intro d' s' _ hs hk
            injection hs with h
            subst h
            rw [hkey] at hk
            exact absurd hk (by simp)
          · intro d' s' k' _ hs hk _
            injection hs with h
            subst h
            simp [garageNew, hdb, hsec, hkey, hmode]
        | some mode =>
          exfalso
          rcases hbad with h | h | h | h
          · exact h d hdb
          · rw [hsec] at h
            exact absurd h (by simp)
          · exact h s key hsec hkey
          · rw [hmode] at h
            exact absurd h (by simp)

/-- Witness for C10: a configuration naming the unknown engine `postgres`,
with no RPC secret and an unparsable replication mode, makes `Garage::new`
fail with an error before any component is constructed. -/
theorem config_validation_fails_cleanly_witness :
    (∃ msg,
      (garageNew ⟨true, true, true, false⟩ ⟨"postgres", none, "5"⟩).1 =
        .error msg) ∧
    (garageNew ⟨true, true, true, false⟩ ⟨"postgres", none, "5"⟩).2 = [] :=
  ⟨(config_validation_fails_cleanly ⟨true, true, true, false⟩
      ⟨"postgres", none, "5"⟩ (Or.inr (Or.inl rfl))).1,
   (config_validation_fails_cleanly ⟨true, true, true, false⟩
      ⟨"postgres", none, "5"⟩ (Or.inr (Or.inl rfl))).2.1⟩

end Garage
